import Mathlib

/-
  Verification of the batch image conversion pipeline
  (src/app/image_processing.rs, src/app.rs, src/app/gui.rs).

  The Rust pipeline is embedded shallowly: the per-item worker body of
  convert_images becomes processItem, the parallel iteration becomes the
  sequential fold runFrom (one linearization of the racing workers; each
  item runs its steps in program order, and the rayon join point before
  the final Completed send is preserved), shared mutable state behind the
  parking_lot mutexes becomes explicit state passing on SharedState, the
  mpsc sender becomes an accumulated event list, and the filesystem and
  codec outcomes become an ItemEnv oracle per index. Floating point f32
  division is modelled by exact rationals extended with infinities and a
  nan marker, which keeps the finite versus non-finite distinction exact.
-/

namespace ImageEncoder

/-- One input image file, embedding the pieces of input_path used by the
pipeline: its display form and its file stem. -/
structure InputFile where
  display : String
  stem : String
  deriving DecidableEq, Repr

/-- The configuration arguments of convert_images
(image_processing.rs lines 20 to 28). Quality is modelled as a rational. -/
structure Config where
  output_directory : String
  resize_enabled : Bool
  width : Nat
  height : Nat
  quality_enabled : Bool
  compression_quality : ℚ
  rename_enabled : Bool
  output_filename : String
  deriving DecidableEq, Repr

/-- The environment of one item: outcomes of load_image, encode_to_webp and
save_webp, and the two fs metadata stat calls. Each stat result is none when
std fs metadata returns Err, matching the map then unwrap_or pattern. -/
structure ItemEnv where
  load : Except String Unit
  encode : Except String Unit
  save : Except String Unit
  statSrc : Option Nat
  statDst : Option Nat
  deriving Repr

/-- Idealized f32 value: a finite rational, an infinity, or nan. -/
inductive FVal where
  | finite (q : ℚ)
  | posInf
  | negInf
  | nan
  deriving DecidableEq, Repr

/-- Division of two natural sizes with IEEE style special cases, modelling
compressed_size as f32 / original_size as f32: a zero denominator gives nan
for 0 / 0 and positive infinity otherwise; all other cases are exact. -/
def fdiv (a b : Nat) : FVal :=
  if b = 0 then (if a = 0 then FVal.nan else FVal.posInf)
  else FVal.finite ((a : ℚ) / (b : ℚ))

/-- Subtraction of an FVal from one, modelling 1.0 - x in f32. -/
def oneSub : FVal → FVal
  | FVal.finite q => FVal.finite (1 - q)
  | FVal.posInf => FVal.negInf
  | FVal.negInf => FVal.posInf
  | FVal.nan => FVal.nan

/-- The compression rate of image_processing.rs line 111:
1.0 - (compressed_size as f32 / original_size as f32). -/
def compression_rate (compressed original : Nat) : FVal :=
  oneSub (fdiv compressed original)

/-- Whether an FVal is a finite number. -/
def FVal.isFinite : FVal → Bool
  | FVal.finite _ => true
  | _ => false

/-- The ConversionProgress struct of app.rs. -/
structure ConversionProgress where
  total : Nat
  completed : Nat
  status : String
  deriving DecidableEq, Repr

/-- The ImageDetail struct of app.rs. -/
structure ImageDetail where
  name : String
  original_size : Nat
  compressed_size : Option Nat
  compression_rate : Option FVal
  status : String
  error_message : Option String
  deriving DecidableEq, Repr

/-- The ConversionUpdate enum of app.rs lines 41 to 48. The worker sends
ImageProcessed with the concrete size and rate it computed, wrapped into the
optional payload declared by the enum. -/
inductive ConversionUpdate where
  | Progress (completed : Nat) (total : Nat)
  | ImageProcessed (index : Nat) (compressed_size : Option Nat)
      (rate : Option FVal)
  | Completed
  | StatusUpdate (index : Nat) (status : String) (error_message : Option String)
  | ResultsUpdate (total_original : ℚ) (total_compressed : ℚ)
  deriving DecidableEq, Repr

/-- The shared mutable state reachable from convert_images through the Arc
Mutex arguments: progress, the log buffer, the two size tallies, the per item
detail records, and the currently processing marker. -/
structure SharedState where
  progress : ConversionProgress
  log_messages : List String
  original_sizes : List Nat
  compressed_sizes : List Nat
  image_details : List ImageDetail
  currently_processing : Option Nat
  deriving DecidableEq, Repr

/-- Appending one line to the log buffer (logger.log). Timestamps are not
modelled; the message itself is kept. -/
def addLog (s : SharedState) (m : String) : SharedState :=
  { s with log_messages := s.log_messages ++ [m] }

/-- Placeholder for the environment dependent get_memory_usage line. -/
def memUsageText : String := "Memory usage line"

/-- The effective encode quality of image_processing.rs line 80:
the configured quality when the override is enabled, else 80. -/
def effective_quality (cfg : Config) : ℚ :=
  if cfg.quality_enabled then cfg.compression_quality else 80

/-- The destination file name computation of image_processing.rs
lines 89 to 94. -/
def output_file_name (cfg : Config) (f : InputFile) : String :=
  if cfg.rename_enabled = true ∧ cfg.output_filename ≠ "" then
    cfg.output_filename ++ ".webp"
  else
    f.stem ++ ".webp"

/-- The field update applied to an ImageDetail on success
(image_processing.rs lines 114 to 116). -/
def updEntry (cs : Nat) (r : FVal) (d : ImageDetail) : ImageDetail :=
  { d with compressed_size := some cs, compression_rate := some r }

/-- The guarded in place mutation of image_details at an index
(image_processing.rs lines 113 to 117): update the record when the index is
present, otherwise leave the list unchanged. -/
def updateDetail (l : List ImageDetail) (i : Nat) (cs : Nat) (r : FVal) :
    List ImageDetail :=
  match l[i]? with
  | some d => l.set i (updEntry cs r d)
  | none => l

/-- The common tail of every worker iteration (image_processing.rs
lines 129 to 137): increment completed under the progress lock, refresh the
status text, write two log lines, emit the Progress event, and clear the
currently processing marker. -/
def finishItem (total : Nat) (s : SharedState) : SharedState × ConversionUpdate :=
  let completed := s.progress.completed + 1
  let statusText :=
    "Converting image " ++ toString completed ++ " of " ++ toString total
  let s1 := { s with progress :=
    { s.progress with completed := completed, status := statusText } }
  let s2 := addLog (addLog s1 statusText) memUsageText
  let s3 := { s2 with currently_processing := none }
  (s3, ConversionUpdate.Progress completed total)

/-- The result of one worker iteration: the state after it, the events it
sent in order, and the destination path it wrote, when it wrote one. -/
structure ItemResult where
  state : SharedState
  events : List ConversionUpdate
  written : Option String
  deriving Repr

/-- One worker iteration of the par_iter closure in convert_images
(image_processing.rs lines 61 to 138): mark the index active, load, maybe
resize, encode, save; on success push both stat sizes, compute the
compression rate, patch the detail record and emit ImageProcessed; on any
failure just log; in every case run the common tail. -/
def processItem (cfg : Config) (total : Nat) (index : Nat) (f : InputFile)
    (e : ItemEnv) (s : SharedState) : ItemResult :=
  let s := { s with currently_processing := some index }
  let s := addLog s ("Processing file: " ++ f.display)
  let s := addLog s ("Loading image " ++ f.display ++ " took time")
  match e.load with
  | Except.error err =>
    let s := addLog s ("Failed to load " ++ f.display ++ ": " ++ err)
    let r := finishItem total s
    { state := r.1, events := [r.2], written := none }
  | Except.ok _ =>
    let s := addLog s "Image loaded successfully"
    let s :=
      if cfg.resize_enabled then
        addLog (addLog s "Resizing image") "Resizing image took time"
      else s
    let s := addLog s "Using quality line"
    let s := addLog (addLog s "Encoding to WebP") "Encoding to WebP took time"
    match e.encode with
    | Except.error err =>
      let s := addLog s ("Failed to encode " ++ f.display ++ ": " ++ err)
      let r := finishItem total s
      { state := r.1, events := [r.2], written := none }
    | Except.ok _ =>
      let s := addLog s "WebP encoding successful"
      let path := cfg.output_directory ++ "/" ++ output_file_name cfg f
      let s := addLog (addLog s ("Saving WebP file to: " ++ path))
        "Saving WebP file took time"
      match e.save with
      | Except.error err =>
        let s := addLog s ("Failed to save " ++ path ++ ": " ++ err)
        let r := finishItem total s
        { state := r.1, events := [r.2], written := none }
      | Except.ok _ =>
        let s := addLog s "WebP file saved successfully"
        let original_size := e.statSrc.getD 0
        let compressed_size := e.statDst.getD 0
        let s := { s with
          original_sizes := s.original_sizes ++ [original_size],
          compressed_sizes := s.compressed_sizes ++ [compressed_size] }
        let rate := compression_rate compressed_size original_size
        let s := { s with
          image_details := updateDetail s.image_details index compressed_size rate }
        let r := finishItem total s
        { state := r.1,
          events := [ConversionUpdate.ImageProcessed index (some compressed_size)
            (some rate), r.2],
          written := some path }

/-- Whether the environment of an item makes every fallible step succeed. -/
def exOk : Except String Unit → Bool
  | Except.ok _ => true
  | Except.error _ => false

/-- An item converts successfully exactly when load, encode and save all
succeed. -/
def envOk (e : ItemEnv) : Bool :=
  exOk e.load && exOk e.encode && exOk e.save

/-- The error log line an item produces, when it fails: the first failing
stage among load, encode and save determines the message
(image_processing.rs lines 102, 123 and 126). -/
def failLog (cfg : Config) (f : InputFile) (e : ItemEnv) : Option String :=
  match e.load with
  | Except.error err => some ("Failed to load " ++ f.display ++ ": " ++ err)
  | Except.ok _ =>
    match e.encode with
    | Except.error err => some ("Failed to encode " ++ f.display ++ ": " ++ err)
    | Except.ok _ =>
      match e.save with
      | Except.error err =>
        some ("Failed to save " ++
          (cfg.output_directory ++ "/" ++ output_file_name cfg f) ++ ": " ++ err)
      | Except.ok _ => none

/-- The result of a batch run: the final shared state, the event stream in
emission order, and the written destination paths in write order. -/
structure RunResult where
  state : SharedState
  events : List ConversionUpdate
  writes : List String
  deriving Repr

/-- The iteration over the enumerated input files, one linearization of the
par_iter of image_processing.rs line 61: item at position n carries index
i + n. -/
def runFrom (cfg : Config) (total : Nat) (env : Nat → ItemEnv) :
    Nat → List InputFile → SharedState → RunResult
  | _, [], s => { state := s, events := [], writes := [] }
  | i, f :: fs, s =>
    let r := processItem cfg total i f (env i) s
    let rest := runFrom cfg total env (i + 1) fs r.state
    { state := rest.state, events := r.events ++ rest.events,
      writes := r.written.toList ++ rest.writes }

/-- The convert_images entry point (image_processing.rs lines 19 to 146):
two opening log lines; early return with no events on an empty submission;
otherwise reset progress to total equals N and completed equals zero, run
every item, send Completed after the parallel iteration has finished, and
set the final status text. -/
def convert_images (input_files : List InputFile) (cfg : Config)
    (env : Nat → ItemEnv) (s : SharedState) : RunResult :=
  let s := addLog (addLog s "Starting convert_images function") memUsageText
  if input_files.isEmpty then
    { state := addLog s "No input files selected", events := [], writes := [] }
  else
    let total := input_files.length
    let s := addLog s ("Total files to process: " ++ toString total)
    let s := { s with progress :=
      { total := total, completed := 0, status := "Starting conversion..." } }
    let s := addLog (addLog s "Creating thread pool")
      "Starting parallel iteration over input files"
    let r := runFrom cfg total env 0 input_files s
    let s := addLog r.state "Conversion process completed in time"
    let s := { s with progress :=
      { s.progress with status := "Conversion complete!" } }
    { state := s, events := r.events ++ [ConversionUpdate.Completed],
      writes := r.writes }

/-- The Select Images handler of gui.rs lines 25 to 40: replace the
image_details collection wholesale with fresh records built from the chosen
files and their stat sizes, each with status Load successful, and log one
line. The size tallies and progress are not touched. -/
def select_images (files : List (String × Nat)) (s : SharedState) : SharedState :=
  { s with
    image_details := files.map (fun p =>
      { name := p.1, original_size := p.2, compressed_size := none,
        compression_rate := none, status := "Load successful",
        error_message := none }),
    log_messages := s.log_messages ++ ["Images selected successfully."] }

/-- The mutexes of the shared state: the progress counter lock, the
image_details lock, the two size tally locks, and the currently processing
marker lock. -/
inductive LockId where
  | progressL
  | detailsL
  | origSizesL
  | compSizesL
  | currentL
  deriving DecidableEq, Repr

/-- The kinds of events a worker can send. -/
inductive EvTag where
  | progressEv
  | imageProcessedEv
  | completedEv
  | statusUpdateEv
  | resultsEv
  deriving DecidableEq, Repr

/-- A primitive lock or channel action of the worker code. -/
inductive LAct where
  | acq (l : LockId)
  | rel (l : LockId)
  | send (t : EvTag)
  deriving DecidableEq, Repr

/-- The lock and send actions of one par_iter iteration, in program order
(image_processing.rs lines 61 to 137). The currently processing store at
line 62 takes and drops its guard within the statement. On success the two
size tallies are pushed under momentary guards, the image_details guard is
explicitly dropped at line 117 before the ImageProcessed send at line 119.
The progress guard taken at line 129 is still live across the Progress send
at line 134 and the currently processing store at line 136, and drops only
at the end of the closure body. -/
def itemLockTrace (ok : Bool) : List LAct :=
  [LAct.acq LockId.currentL, LAct.rel LockId.currentL] ++
  (if ok then
    [LAct.acq LockId.origSizesL, LAct.rel LockId.origSizesL,
     LAct.acq LockId.compSizesL, LAct.rel LockId.compSizesL,
     LAct.acq LockId.detailsL, LAct.rel LockId.detailsL,
     LAct.send EvTag.imageProcessedEv]
  else []) ++
  [LAct.acq LockId.progressL, LAct.send EvTag.progressEv,
   LAct.acq LockId.currentL, LAct.rel LockId.currentL,
   LAct.rel LockId.progressL]

/-- The lock and send actions of a whole convert_images run on a nonempty
batch, one Boolean per item saying whether it succeeded: the progress reset
block of lines 48 to 53, the per item traces, the Completed send at line 140
with no lock held, and the final status update under the progress lock. -/
def batchLockTrace (oks : List Bool) : List LAct :=
  [LAct.acq LockId.progressL, LAct.rel LockId.progressL] ++
  (oks.map itemLockTrace).flatten ++
  [LAct.send EvTag.completedEv,
   LAct.acq LockId.progressL, LAct.rel LockId.progressL]

/-- The set of locks held after running a list of actions from a given
held list. -/
def heldAfter : List LAct → List LockId → List LockId
  | [], h => h
  | LAct.acq k :: r, h => heldAfter r (k :: h)
  | LAct.rel k :: r, h => heldAfter r (h.erase k)
  | LAct.send _ :: r, h => heldAfter r h

/-- Whether, somewhere in the action list, an event with the given tag is
sent while the given lock is among the held ones. -/
def sentWhileHolding : List LAct → List LockId → LockId → EvTag → Bool
  | [], _, _, _ => false
  | LAct.acq k :: r, h, l, t => sentWhileHolding r (k :: h) l t
  | LAct.rel k :: r, h, l, t => sentWhileHolding r (h.erase k) l t
  | LAct.send u :: r, h, l, t =>
    (u == t && h.contains l) || sentWhileHolding r h l t

/-- A Bool test for the Progress constructor. -/
def isProgressEv : ConversionUpdate → Bool
  | ConversionUpdate.Progress _ _ => true
  | _ => false

/-- A Bool test for the ImageProcessed constructor. -/
def isImageProcessedEv : ConversionUpdate → Bool
  | ConversionUpdate.ImageProcessed _ _ _ => true
  | _ => false

/-- A Bool test for the Completed constructor. -/
def isCompletedEv : ConversionUpdate → Bool
  | ConversionUpdate.Completed => true
  | _ => false

/-- A Bool test for the StatusUpdate constructor. -/
def isStatusUpdateEv : ConversionUpdate → Bool
  | ConversionUpdate.StatusUpdate _ _ _ => true
  | _ => false

/-- The completed payload of a Progress event. -/
def progressValue : ConversionUpdate → Option Nat
  | ConversionUpdate.Progress c _ => some c
  | _ => none

/-- A sample configuration matching the App defaults of app.rs, with a
concrete output directory. -/
def cfg0 : Config :=
  { output_directory := "/out", resize_enabled := false, width := 800,
    height := 600, quality_enabled := false, compression_quality := 80,
    rename_enabled := false, output_filename := "output" }

/-- The sample configuration with renaming enabled and base name out. -/
def cfgR : Config :=
  { cfg0 with rename_enabled := true, output_filename := "out" }

/-- An item environment where every step succeeds and both stat calls
answer. -/
def envAllOk (o c : Nat) : ItemEnv :=
  { load := Except.ok (), encode := Except.ok (), save := Except.ok (),
    statSrc := some o, statDst := some c }

/-- A uniform environment: every item succeeds with source size 100 and
destination size 50. -/
def envAll0 : Nat → ItemEnv := fun _ => envAllOk 100 50

/-- A uniform environment where loading fails for every item. -/
def envLoadErr : Nat → ItemEnv := fun _ =>
  { load := Except.error "no such file", encode := Except.ok (),
    save := Except.ok (), statSrc := some 100, statDst := some 50 }

/-- A uniform environment where everything succeeds but the source stat
fails. -/
def envNoSrcStat : Nat → ItemEnv := fun _ =>
  { load := Except.ok (), encode := Except.ok (), save := Except.ok (),
    statSrc := none, statDst := some 50 }

/-- A sample input file. -/
def file0 : InputFile := { display := "/in/a.jpg", stem := "a" }

/-- A second sample input file. -/
def file1 : InputFile := { display := "/in/b.jpg", stem := "b" }

/-- The detail record the GUI creates for file0 at selection time. -/
def detail0 : ImageDetail :=
  { name := "a.jpg", original_size := 100, compressed_size := none,
    compression_rate := none, status := "Load successful",
    error_message := none }

/-- The detail record the GUI creates for file1 at selection time. -/
def detail1 : ImageDetail :=
  { name := "b.jpg", original_size := 120, compressed_size := none,
    compression_rate := none, status := "Load successful",
    error_message := none }

/-- A fresh shared state holding the record for file0, as after selecting
one image. -/
def st0 : SharedState :=
  { progress := { total := 0, completed := 0, status := "" },
    log_messages := [], original_sizes := [], compressed_sizes := [],
    image_details := [detail0], currently_processing := none }

/-- A fresh shared state holding the records for file0 and file1. -/
def st1 : SharedState :=
  { st0 with image_details := [detail0, detail1] }

/-- The shared state after running one batch on file0 with destination size
ten, then selecting file1 and running a second batch with destination size
twenty. -/
def twoBatchState : SharedState :=
  let e1 : Nat → ItemEnv := fun _ => envAllOk 100 10
  let e2 : Nat → ItemEnv := fun _ => envAllOk 120 20
  let s1 := (convert_images [file0] cfg0 e1 st0).state
  let s2 := select_images [("b.jpg", 120)] s1
  (convert_images [file1] cfg0 e2 s2).state

/-- The sequence of destination paths a batch writes, item by item in
submission order, given the per item destination file name function: the
item at index k writes its own name under the output directory exactly when
its load, encode and save all succeed, and contributes nothing otherwise. -/
def writeList (cfg : Config) (env : Nat → ItemEnv)
    (name : InputFile → String) : Nat → List InputFile → List String
  | _, [] => []
  | i, f :: fs =>
    (if envOk (env i) = true then
      [cfg.output_directory ++ "/" ++ name f] else []) ++
    writeList cfg env name (i + 1) fs

theorem updateDetail_nil (i cs : Nat) (r : FVal) :
    updateDetail [] i cs r = [] := by
  simp [updateDetail]

theorem updateDetail_cons_zero (d : ImageDetail) (t : List ImageDetail)
    (cs : Nat) (r : FVal) :
    updateDetail (d :: t) 0 cs r = updEntry cs r d :: t := by
  simp [updateDetail]

theorem updateDetail_cons_succ (d : ImageDetail) (t : List ImageDetail)
    (i cs : Nat) (r : FVal) :
    updateDetail (d :: t) (i + 1) cs r = d :: updateDetail t i cs r := by
  unfold updateDetail
  cases h : t[i]? <;> simp [h]

theorem updateDetail_get? (l : List ImageDetail) :
    ∀ (i j cs : Nat) (r : FVal),
      (updateDetail l i cs r)[j]? =
        if j = i then (l[j]?).map (updEntry cs r) else l[j]? := by
  induction l with
  | nil =>
    intro i j cs r
    simp [updateDetail_nil]
  | cons d t ih =>
    intro i j cs r
    cases i with
    | zero =>
      cases j with
      | zero => simp [updateDetail_cons_zero]
      | succ m => simp [updateDetail_cons_zero]
    | succ n =>
      cases j with
      | zero => simp [updateDetail_cons_succ]
      | succ m => simp [updateDetail_cons_succ, ih]

theorem updateDetail_map {α : Type} (g : ImageDetail → α)
    (hg : ∀ cs r d, g (updEntry cs r d) = g d) (l : List ImageDetail) :
    ∀ (i cs : Nat) (r : FVal), (updateDetail l i cs r).map g = l.map g := by
  induction l with
  | nil => intro i cs r; simp [updateDetail_nil]
  | cons d t ih =>
    intro i cs r
    cases i with
    | zero => simp [updateDetail_cons_zero, hg]
    | succ n => simp [updateDetail_cons_succ, ih]

theorem pi_events_eq (cfg : Config) (total i : Nat) (f : InputFile)
    (e : ItemEnv) (s : SharedState) :
    (processItem cfg total i f e s).events =
      (if envOk e = true then
        [ConversionUpdate.ImageProcessed i (some (e.statDst.getD 0))
          (some (compression_rate (e.statDst.getD 0) (e.statSrc.getD 0)))]
       else []) ++
      [ConversionUpdate.Progress (s.progress.completed + 1) total] := by
  rcases e with ⟨el, ee, es, ss, sd⟩
  cases el <;> cases ee <;> cases es <;> cases hr : cfg.resize_enabled <;>
    simp [processItem, finishItem, addLog, envOk, exOk, hr]

theorem pi_progress_eq (cfg : Config) (total i : Nat) (f : InputFile)
    (e : ItemEnv) (s : SharedState) :
    (processItem cfg total i f e s).state.progress =
      { total := s.progress.total, completed := s.progress.completed + 1,
        status := "Converting image " ++ toString (s.progress.completed + 1)
          ++ " of " ++ toString total } := by
  rcases e with ⟨el, ee, es, ss, sd⟩
  cases el <;> cases ee <;> cases es <;> cases hr : cfg.resize_enabled <;>
    simp [processItem, finishItem, addLog, hr]

theorem pi_details_get? (cfg : Config) (total i : Nat) (f : InputFile)
    (e : ItemEnv) (s : SharedState) (j : Nat) :
    (processItem cfg total i f e s).state.image_details[j]? =
      if j = i ∧ envOk e = true then
        (s.image_details[j]?).map
          (updEntry (e.statDst.getD 0)
            (compression_rate (e.statDst.getD 0) (e.statSrc.getD 0)))
      else s.image_details[j]? := by
  rcases e with ⟨el, ee, es, ss, sd⟩
  cases el <;> cases ee <;> cases es <;> cases hr : cfg.resize_enabled <;>
    simp [processItem, finishItem, addLog, envOk, exOk, hr, updateDetail_get?]

theorem pi_details_map {α : Type} (g : ImageDetail → α)
    (hg : ∀ cs r d, g (updEntry cs r d) = g d)
    (cfg : Config) (total i : Nat) (f : InputFile) (e : ItemEnv)
    (s : SharedState) :
    (processItem cfg total i f e s).state.image_details.map g =
      s.image_details.map g := by
  rcases e with ⟨el, ee, es, ss, sd⟩
  cases el <;> cases ee <;> cases es <;> cases hr : cfg.resize_enabled <;>
    simp [processItem, finishItem, addLog, hr, updateDetail_map g hg]

theorem pi_orig_sizes (cfg : Config) (total i : Nat) (f : InputFile)
    (e : ItemEnv) (s : SharedState) :
    (processItem cfg total i f e s).state.original_sizes =
      s.original_sizes ++
        (if envOk e = true then [e.statSrc.getD 0] else []) := by
  rcases e with ⟨el, ee, es, ss, sd⟩
  cases el <;> cases ee <;> cases es <;> cases hr : cfg.resize_enabled <;>
    simp [processItem, finishItem, addLog, envOk, exOk, hr]

theorem pi_comp_sizes (cfg : Config) (total i : Nat) (f : InputFile)
    (e : ItemEnv) (s : SharedState) :
    (processItem cfg total i f e s).state.compressed_sizes =
      s.compressed_sizes ++
        (if envOk e = true then [e.statDst.getD 0] else []) := by
  rcases e with ⟨el, ee, es, ss, sd⟩
  cases el <;> cases ee <;> cases es <;> cases hr : cfg.resize_enabled <;>
    simp [processItem, finishItem, addLog, envOk, exOk, hr]

theorem pi_written_eq (cfg : Config) (total i : Nat) (f : InputFile)
    (e : ItemEnv) (s : SharedState) :
    (processItem cfg total i f e s).written =
      if envOk e = true then
        some (cfg.output_directory ++ "/" ++ output_file_name cfg f)
      else none := by
  rcases e with ⟨el, ee, es, ss, sd⟩
  cases el <;> cases ee <;> cases es <;> cases hr : cfg.resize_enabled <;>
    simp [processItem, finishItem, addLog, envOk, exOk, hr]

theorem pi_log_mono (cfg : Config) (total i : Nat) (f : InputFile)
    (e : ItemEnv) (s : SharedState) (m : String)
    (hm : m ∈ s.log_messages) :
    m ∈ (processItem cfg total i f e s).state.log_messages := by
  rcases e with ⟨el, ee, es, ss, sd⟩
  cases el <;> cases ee <;> cases es <;> cases hr : cfg.resize_enabled <;>
    simp [processItem, finishItem, addLog, hr, hm]

theorem pi_fail_log (cfg : Config) (total i : Nat) (f : InputFile)
    (e : ItemEnv) (s : SharedState) (m : String)
    (hm : failLog cfg f e = some m) :
    m ∈ (processItem cfg total i f e s).state.log_messages := by
  rcases e with ⟨el, ee, es, ss, sd⟩
  cases el <;> cases ee <;> cases es <;>
    simp [failLog] at hm <;>
      cases hr : cfg.resize_enabled <;>
        simp [processItem, finishItem, addLog, hr, hm]

theorem rf_progress_total (cfg : Config) (total : Nat) (env : Nat → ItemEnv)
    (fs : List InputFile) :
    ∀ (i : Nat) (s : SharedState),
      (runFrom cfg total env i fs s).state.progress.total = s.progress.total := by
  induction fs with
  | nil => intro i s; simp [runFrom]
  | cons a t ih =>
    intro i s
    simp [runFrom, ih, pi_progress_eq]

theorem rf_progress_completed (cfg : Config) (total : Nat)
    (env : Nat → ItemEnv) (fs : List InputFile) :
    ∀ (i : Nat) (s : SharedState),
      (runFrom cfg total env i fs s).state.progress.completed =
        s.progress.completed + fs.length := by
  induction fs with
  | nil => intro i s; simp [runFrom]
  | cons a t ih =>
    intro i s
    simp [runFrom, ih, pi_progress_eq]
    omega

theorem rf_progress_values (cfg : Config) (total : Nat) (env : Nat → ItemEnv)
    (fs : List InputFile) :
    ∀ (i : Nat) (s : SharedState),
      ((runFrom cfg total env i fs s).events).filterMap progressValue =
        List.range' (s.progress.completed + 1) fs.length := by
  induction fs with
  | nil => intro i s; simp [runFrom]
  | cons a t ih =>
    intro i s
    by_cases hok : envOk (env i) = true <;>
      simp [runFrom, List.filterMap_append, pi_events_eq, hok, progressValue,
        ih, pi_progress_eq, List.range'_succ]

theorem rf_count_completed (cfg : Config) (total : Nat) (env : Nat → ItemEnv)
    (fs : List InputFile) :
    ∀ (i : Nat) (s : SharedState),
      ((runFrom cfg total env i fs s).events).countP isCompletedEv = 0 := by
  induction fs with
  | nil => intro i s; simp [runFrom]
  | cons a t ih =>
    intro i s
    by_cases hok : envOk (env i) = true <;>
      simp [runFrom, List.countP_append, pi_events_eq, hok, isCompletedEv, ih]

theorem rf_count_status (cfg : Config) (total : Nat) (env : Nat → ItemEnv)
    (fs : List InputFile) :
    ∀ (i : Nat) (s : SharedState),
      ((runFrom cfg total env i fs s).events).countP isStatusUpdateEv = 0 := by
  induction fs with
  | nil => intro i s; simp [runFrom]
  | cons a t ih =>
    intro i s
    by_cases hok : envOk (env i) = true <;>
      simp [runFrom, List.countP_append, pi_events_eq, hok, isStatusUpdateEv, ih]

theorem rf_count_progress (cfg : Config) (total : Nat) (env : Nat → ItemEnv)
    (fs : List InputFile) :
    ∀ (i : Nat) (s : SharedState),
      ((runFrom cfg total env i fs s).events).countP isProgressEv =
        fs.length := by
  induction fs with
  | nil => intro i s; simp [runFrom]
  | cons a t ih =>
    intro i s
    by_cases hok : envOk (env i) = true <;>
      simp [runFrom, List.countP_append, pi_events_eq, hok, isProgressEv, ih]

theorem rf_log_mono (cfg : Config) (total : Nat) (env : Nat → ItemEnv)
    (fs : List InputFile) :
    ∀ (i : Nat) (s : SharedState) (m : String), m ∈ s.log_messages →
      m ∈ (runFrom cfg total env i fs s).state.log_messages := by
  induction fs with
  | nil => intro i s m h; simpa [runFrom] using h
  | cons a t ih =>
    intro i s m h
    simp only [runFrom]
    exact ih _ _ _ (pi_log_mono _ _ _ _ _ _ _ h)

theorem rf_fail_log (cfg : Config) (total : Nat) (env : Nat → ItemEnv)
    (fs : List InputFile) :
    ∀ (i n : Nat) (s : SharedState) (f : InputFile) (m : String),
      fs[n]? = some f → failLog cfg f (env (i + n)) = some m →
      m ∈ (runFrom cfg total env i fs s).state.log_messages := by
  induction fs with
  | nil => intro i n s f m h _; simp at h
  | cons a t ih =>
    intro i n s f m hf hm
    cases n with
    | zero =>
      simp at hf
      subst hf
      simp only [runFrom]
      exact rf_log_mono cfg total env t _ _ _
        (pi_fail_log _ _ _ _ _ _ _ (by simpa using hm))
    | succ k =>
      simp only [runFrom]
      have harith : i + (k + 1) = (i + 1) + k := by omega
      rw [harith] at hm
      exact ih (i + 1) k _ f m (by simpa using hf) hm

theorem rf_ip_mem (cfg : Config) (total : Nat) (env : Nat → ItemEnv)
    (fs : List InputFile) :
    ∀ (i : Nat) (s : SharedState) (j : Nat) (cs : Option Nat) (r : Option FVal),
      ConversionUpdate.ImageProcessed j cs r ∈
        (runFrom cfg total env i fs s).events →
      envOk (env j) = true ∧ i ≤ j ∧ j < i + fs.length := by
  induction fs with
  | nil => intro i s j cs r h; simp [runFrom] at h
  | cons a t ih =>
    intro i s j cs r h
    simp only [runFrom, List.mem_append] at h
    rcases h with h | h
    · rw [pi_events_eq] at h
      rcases List.mem_append.mp h with h | h
      · by_cases hok : envOk (env i) = true
        · rw [if_pos hok] at h
          simp at h
          obtain ⟨hj, _, _⟩ := h
          subst hj
          exact ⟨hok, Nat.le_refl _, by simp⟩
        · rw [if_neg hok] at h
          simp at h
      · simp at h
    · obtain ⟨hok, h1, h2⟩ := ih _ _ _ _ _ h
      refine ⟨hok, by omega, ?_⟩
      simp only [List.length_cons]
      omega

theorem rf_ip_intro (cfg : Config) (total : Nat) (env : Nat → ItemEnv)
    (fs : List InputFile) :
    ∀ (i n : Nat) (s : SharedState) (f : InputFile),
      fs[n]? = some f → envOk (env (i + n)) = true →
      ConversionUpdate.ImageProcessed (i + n)
        (some ((env (i + n)).statDst.getD 0))
        (some (compression_rate ((env (i + n)).statDst.getD 0)
          ((env (i + n)).statSrc.getD 0))) ∈
        (runFrom cfg total env i fs s).events := by
  induction fs with
  | nil => intro i n s f h _; simp at h
  | cons a t ih =>
    intro i n s f hf hok
    cases n with
    | zero =>
      simp only [runFrom, List.mem_append]
      left
      rw [pi_events_eq, if_pos (by simpa using hok)]
      simp
    | succ k =>
      simp only [runFrom, List.mem_append]
      right
      have harith : i + (k + 1) = (i + 1) + k := by omega
      rw [harith] at hok ⊢
      exact ih (i + 1) k _ f (by simpa using hf) hok

theorem rf_writes_mem (cfg : Config) (total : Nat) (env : Nat → ItemEnv)
    (fs : List InputFile) :
    ∀ (i : Nat) (s : SharedState) (p : String),
      p ∈ (runFrom cfg total env i fs s).writes →
      ∃ f, f ∈ fs ∧ p = cfg.output_directory ++ "/" ++ output_file_name cfg f := by
  induction fs with
  | nil => intro i s p h; simp [runFrom] at h
  | cons a t ih =>
    intro i s p h
    simp only [runFrom, List.mem_append] at h
    rcases h with h | h
    · rw [pi_written_eq] at h
      by_cases hok : envOk (env i) = true
      · rw [if_pos hok] at h
        simp at h
        exact ⟨a, List.mem_cons_self a t, h⟩
      · rw [if_neg hok] at h
        simp at h
    · obtain ⟨f, hmem, hp⟩ := ih _ _ _ h
      exact ⟨f, List.mem_cons_of_mem a hmem, hp⟩

theorem rf_writes_eq (cfg : Config) (total : Nat) (env : Nat → ItemEnv)
    (fs : List InputFile) :
    ∀ (i : Nat) (s : SharedState),
      (runFrom cfg total env i fs s).writes =
        writeList cfg env (output_file_name cfg) i fs := by
  induction fs with
  | nil => intro i s; simp [runFrom, writeList]
  | cons a t ih =>
    intro i s
    simp only [runFrom, writeList]
    rw [pi_written_eq, ih]
    by_cases hok : envOk (env i) = true <;> simp [hok]

theorem rf_sizes_ext (cfg : Config) (total : Nat) (env : Nat → ItemEnv)
    (fs : List InputFile) :
    ∀ (i : Nat) (s : SharedState),
      (∃ t, (runFrom cfg total env i fs s).state.original_sizes =
        s.original_sizes ++ t) ∧
      (∃ t, (runFrom cfg total env i fs s).state.compressed_sizes =
        s.compressed_sizes ++ t) := by
  induction fs with
  | nil => intro i s; exact ⟨⟨[], by simp [runFrom]⟩, ⟨[], by simp [runFrom]⟩⟩
  | cons a t ih =>
    intro i s
    obtain ⟨⟨t1, h1⟩, ⟨t2, h2⟩⟩ := ih (i + 1)
      (processItem cfg total i a (env i) s).state
    constructor
    · refine ⟨(if envOk (env i) = true then [(env i).statSrc.getD 0] else [])
        ++ t1, ?_⟩
      simp only [runFrom]
      rw [h1, pi_orig_sizes, List.append_assoc]
    · refine ⟨(if envOk (env i) = true then [(env i).statDst.getD 0] else [])
        ++ t2, ?_⟩
      simp only [runFrom]
      rw [h2, pi_comp_sizes, List.append_assoc]

theorem rf_details_map {α : Type} (g : ImageDetail → α)
    (hg : ∀ cs r d, g (updEntry cs r d) = g d)
    (cfg : Config) (total : Nat) (env : Nat → ItemEnv) (fs : List InputFile) :
    ∀ (i : Nat) (s : SharedState),
      (runFrom cfg total env i fs s).state.image_details.map g =
        s.image_details.map g := by
  induction fs with
  | nil => intro i s; simp [runFrom]
  | cons a t ih =>
    intro i s
    simp only [runFrom]
    rw [ih, pi_details_map g hg]

theorem rf_details_get? (cfg : Config) (total : Nat) (env : Nat → ItemEnv)
    (fs : List InputFile) :
    ∀ (i : Nat) (s : SharedState) (j : Nat),
      (runFrom cfg total env i fs s).state.image_details[j]? =
        if i ≤ j ∧ j < i + fs.length ∧ envOk (env j) = true then
          (s.image_details[j]?).map
            (updEntry ((env j).statDst.getD 0)
              (compression_rate ((env j).statDst.getD 0)
                ((env j).statSrc.getD 0)))
        else s.image_details[j]? := by
  induction fs with
  | nil =>
    intro i s j
    simp only [runFrom]
    rw [if_neg (by rintro ⟨h1, h2, _⟩; simp at h2; omega)]
  | cons a t ih =>
    intro i s j
    simp only [runFrom, List.length_cons]
    rw [ih]
    simp only [pi_details_get?]
    by_cases hji : j = i
    · subst hji
      have h1 : ¬ (j + 1 ≤ j ∧ j < (j + 1) + t.length ∧
          envOk (env j) = true) := by
        rintro ⟨h, _, _⟩
        omega
      rw [if_neg h1]
      by_cases hok : envOk (env j) = true
      · rw [if_pos ⟨rfl, hok⟩, if_pos ⟨Nat.le_refl j, by omega, hok⟩]
      · rw [if_neg (by rintro ⟨_, h⟩; exact hok h),
          if_neg (by rintro ⟨_, _, h⟩; exact hok h)]
    · have hinner : ¬ (j = i ∧ envOk (env i) = true) := by
        rintro ⟨h, _⟩
        exact hji h
      simp only [if_neg hinner]
      by_cases hc : (i + 1 ≤ j ∧ j < (i + 1) + t.length ∧
          envOk (env j) = true)
      · rw [if_pos hc, if_pos ⟨by omega, by omega, hc.2.2⟩]
      · rw [if_neg hc, if_neg (by
          rintro ⟨ha, hb, hok⟩
          exact hc ⟨by omega, by omega, hok⟩)]

theorem heldAfter_append (a : List LAct) :
    ∀ (b : List LAct) (h : List LockId),
      heldAfter (a ++ b) h = heldAfter b (heldAfter a h) := by
  induction a with
  | nil => intro b h; simp [heldAfter]
  | cons x r ih =>
    intro b h
    cases x <;> simp [heldAfter, ih]

theorem swh_append (a : List LAct) :
    ∀ (b : List LAct) (h : List LockId) (l : LockId) (t : EvTag),
      sentWhileHolding (a ++ b) h l t =
        (sentWhileHolding a h l t || sentWhileHolding b (heldAfter a h) l t) := by
  induction a with
  | nil => intro b h l t; simp [sentWhileHolding, heldAfter]
  | cons x r ih =>
    intro b h l t
    cases x <;> simp [sentWhileHolding, heldAfter, ih, Bool.or_assoc]

theorem heldAfter_item (ok : Bool) (h : List LockId) :
    heldAfter (itemLockTrace ok) h = h := by
  cases ok <;> simp [itemLockTrace, heldAfter]

theorem heldAfter_items (oks : List Bool) :
    ∀ (h : List LockId),
      heldAfter ((oks.map itemLockTrace).flatten) h = h := by
  induction oks with
  | nil => intro h; simp [heldAfter]
  | cons b r ih =>
    intro h
    simp [heldAfter_append, heldAfter_item, ih]

theorem swh_items (l : LockId) (t : EvTag) (oks : List Bool) :
    sentWhileHolding ((oks.map itemLockTrace).flatten) [] l t =
      oks.any (fun b => sentWhileHolding (itemLockTrace b) [] l t) := by
  induction oks with
  | nil => simp [sentWhileHolding]
  | cons b r ih =>
    simp [swh_append, heldAfter_item, ih]

theorem batch_swh (oks : List Bool) (l : LockId) (t : EvTag) :
    sentWhileHolding (batchLockTrace oks) [] l t =
      oks.any (fun b => sentWhileHolding (itemLockTrace b) [] l t) := by
  simp [batchLockTrace, swh_append, heldAfter_append, heldAfter_items,
    heldAfter, sentWhileHolding, swh_items]

theorem swh_item_details (b : Bool) (t : EvTag) :
    sentWhileHolding (itemLockTrace b) [] LockId.detailsL t = false := by
  cases b <;> cases t <;> decide

theorem swh_item_progress_ip (b : Bool) :
    sentWhileHolding (itemLockTrace b) [] LockId.progressL
      EvTag.imageProcessedEv = false := by
  cases b <;> decide

theorem swh_item_progress_prog (b : Bool) :
    sentWhileHolding (itemLockTrace b) [] LockId.progressL
      EvTag.progressEv = true := by
  cases b <;> decide

theorem swh_item_completed (b : Bool) (l : LockId) :
    sentWhileHolding (itemLockTrace b) [] l EvTag.completedEv = false := by
  cases b <;> cases l <;> decide

theorem failLog_envOk (cfg : Config) (f : InputFile) (e : ItemEnv)
    (m : String) (hm : failLog cfg f e = some m) :
    envOk e = false := by
  rcases e with ⟨el, ee, es, ss, sd⟩
  cases el <;> cases ee <;> cases es <;>
    simp [failLog, envOk, exOk] at hm ⊢

/-- C1, counterexample. The claim says an empty submission still emits the
terminal ConversionUpdate Completed event exactly once. On a concrete empty
run the code emits no events at all, so the count of Completed events is not
one: convert_images returns at line 42 before any send. -/
theorem C1_empty_counterexample :
    (convert_images [] cfg0 envAll0 st0).events = [] ∧
    ¬ ((convert_images [] cfg0 envAll0 st0).events.countP isCompletedEv = 1) := by
  constructor <;> decide

/-- C1, amended. Calling convert_images with an empty job list performs no
conversions and emits no events whatsoever, the Completed event included:
the function only appends log lines and leaves progress, detail records,
size tallies and writes untouched. -/
theorem C1_empty_submission_amended (cfg : Config) (env : Nat → ItemEnv)
    (s : SharedState) :
    (convert_images [] cfg env s).events = [] ∧
    (convert_images [] cfg env s).writes = [] ∧
    (convert_images [] cfg env s).state.progress = s.progress ∧
    (convert_images [] cfg env s).state.image_details = s.image_details ∧
    (convert_images [] cfg env s).state.original_sizes = s.original_sizes ∧
    (convert_images [] cfg env s).state.compressed_sizes =
      s.compressed_sizes := by
  refine ⟨?_, ?_, ?_, ?_, ?_, ?_⟩ <;> simp [convert_images, addLog]

/-- C2, counterexample. The claim says every submitted job finishes the
batch with its record in a terminal status. In a concrete one job batch that
converts successfully, the record still carries the submission time status
Load successful afterwards: convert_images never writes the status field. -/
theorem C2_status_counterexample :
    (convert_images [file0] cfg0 envAll0 st0).state.image_details.map
      ImageDetail.status = ["Load successful"] ∧
    (convert_images [file0] cfg0 envAll0 st0).state.image_details.countP
      (fun d => d.status == "Conversion successful"
        || d.status == "Conversion failed") = 0 := by
  constructor <;> decide

/-- C2, amended. During a batch run the status and error_message fields of
the Result Records are never mutated at all: they keep their submission
time values, so no status regression can occur, but no record ever reaches
a Processing or terminal status through convert_images either. -/
theorem C2_status_never_mutated (inputs : List InputFile) (cfg : Config)
    (env : Nat → ItemEnv) (s : SharedState) :
    (convert_images inputs cfg env s).state.image_details.map
      ImageDetail.status = s.image_details.map ImageDetail.status ∧
    (convert_images inputs cfg env s).state.image_details.map
      ImageDetail.error_message =
      s.image_details.map ImageDetail.error_message := by
  cases inputs with
  | nil => constructor <;> simp [convert_images, addLog]
  | cons a l =>
    constructor <;>
      simp [convert_images, addLog,
        rf_details_map ImageDetail.status (fun _ _ _ => rfl),
        rf_details_map ImageDetail.error_message (fun _ _ _ => rfl)]

/-- C3, counterexample. The claim says a batch of N jobs yields exactly N
terminal StatusChanged events, which the enum of app.rs calls StatusUpdate.
On a concrete one job batch the code emits zero StatusUpdate events, not
one: no send of that variant exists in convert_images. -/
theorem C3_events_counterexample :
    ¬ ((convert_images [file0] cfg0 envAll0 st0).events.countP
      isStatusUpdateEv = 1) := by
  decide

/-- C3, amended. A nonempty batch of N jobs emits exactly N Progress events
(the per item completion events of this code), zero StatusUpdate events,
and exactly one Completed event, and Completed is the last event of the
stream, hence strictly after every per item event. -/
theorem C3_event_counts_amended (inputs : List InputFile) (cfg : Config)
    (env : Nat → ItemEnv) (s : SharedState) (h : inputs ≠ []) :
    (convert_images inputs cfg env s).events.countP isProgressEv =
      inputs.length ∧
    (convert_images inputs cfg env s).events.countP isStatusUpdateEv = 0 ∧
    (convert_images inputs cfg env s).events.countP isCompletedEv = 1 ∧
    (convert_images inputs cfg env s).events.getLast? =
      some ConversionUpdate.Completed := by
  obtain ⟨a, l, rfl⟩ := List.exists_cons_of_ne_nil h
  refine ⟨?_, ?_, ?_, ?_⟩ <;>
    simp [convert_images, addLog, List.countP_append, rf_count_progress,
      rf_count_status, rf_count_completed, isProgressEv, isStatusUpdateEv,
      isCompletedEv, List.getLast?_concat]

/-- C3, witness for the amended theorem on a concrete one job batch. -/
theorem C3_event_counts_witness :
    (convert_images [file0] cfg0 envAll0 st0).events.countP isProgressEv =
      [file0].length ∧
    (convert_images [file0] cfg0 envAll0 st0).events.countP
      isStatusUpdateEv = 0 ∧
    (convert_images [file0] cfg0 envAll0 st0).events.countP
      isCompletedEv = 1 ∧
    (convert_images [file0] cfg0 envAll0 st0).events.getLast? =
      some ConversionUpdate.Completed :=
  C3_event_counts_amended [file0] cfg0 envAll0 st0 (by decide)

/-- C4. A per item failure at load, encode or save terminates only that
item: its human readable error line is recorded in the log, that item emits
no ImageProcessed event, the batch still runs to completion emitting one
Completed event and one Progress event per submitted item, and the failing
item does not influence the detail records of any sibling index: replacing
the failing environment entry by anything else leaves every other record
unchanged. No error escapes the per item handler. -/
theorem C4_error_isolation (inputs : List InputFile) (cfg : Config)
    (env : Nat → ItemEnv) (s : SharedState) (i : Nat) (f : InputFile)
    (m : String) (hf : inputs[i]? = some f)
    (hm : failLog cfg f (env i) = some m) :
    m ∈ (convert_images inputs cfg env s).state.log_messages ∧
    (∀ cs r, ConversionUpdate.ImageProcessed i cs r ∉
      (convert_images inputs cfg env s).events) ∧
    (convert_images inputs cfg env s).events.countP isCompletedEv = 1 ∧
    (convert_images inputs cfg env s).events.countP isProgressEv =
      inputs.length ∧
    (∀ env2 : Nat → ItemEnv, (∀ j, j ≠ i → env2 j = env j) → ∀ j, j ≠ i →
      (convert_images inputs cfg env2 s).state.image_details[j]? =
      (convert_images inputs cfg env s).state.image_details[j]?) := by
  have hne : inputs ≠ [] := by
    rintro rfl
    simp at hf
  obtain ⟨a, l, rfl⟩ := List.exists_cons_of_ne_nil hne
  refine ⟨?_, ?_, ?_, ?_, ?_⟩
  · simp only [convert_images, List.isEmpty_cons, Bool.false_eq_true,
      if_false, addLog]
    exact List.mem_append_left _
      (rf_fail_log cfg _ env (a :: l) 0 i _ f m hf (by simpa using hm))
  · intro cs r hmem
    simp only [convert_images, List.isEmpty_cons, Bool.false_eq_true,
      if_false, addLog, List.mem_append] at hmem
    rcases hmem with hmem | hmem
    · obtain ⟨hok, _, _⟩ := rf_ip_mem cfg _ env (a :: l) 0 _ i cs r hmem
      rw [failLog_envOk cfg f (env i) m hm] at hok
      exact Bool.false_ne_true hok
    · simp at hmem
  · simp [convert_images, addLog, List.countP_append, rf_count_completed,
      isCompletedEv]
  · simp [convert_images, addLog, List.countP_append, rf_count_progress,
      isProgressEv]
  · intro env2 hagree j hji
    simp only [convert_images, List.isEmpty_cons, Bool.false_eq_true,
      if_false, addLog]
    rw [rf_details_get?, rf_details_get?, hagree j hji]

/-- C4, witness: a one job batch whose load fails records the decode error
line in the log. -/
theorem C4_error_isolation_witness :
    "Failed to load /in/a.jpg: no such file" ∈
      (convert_images [file0] cfg0 envLoadErr st0).state.log_messages :=
  (C4_error_isolation [file0] cfg0 envLoadErr st0 0 file0
    "Failed to load /in/a.jpg: no such file" (by decide) (by decide)).1

/-- C5. For every nonempty batch, the progress counter is reset to total
equals N and completed equals zero at batch start, and completed is then
incremented exactly once per job whatever its outcome: the Progress events
carry exactly the values one through N in order, so completed is
monotonically nondecreasing, never exceeds total, and equals total when the
batch finishes. -/
theorem C5_progress_invariants (inputs : List InputFile) (cfg : Config)
    (env : Nat → ItemEnv) (s : SharedState) (h : inputs ≠ []) :
    (convert_images inputs cfg env s).state.progress.total = inputs.length ∧
    (convert_images inputs cfg env s).state.progress.completed =
      inputs.length ∧
    (convert_images inputs cfg env s).events.filterMap progressValue =
      List.range' 1 inputs.length := by
  obtain ⟨a, l, rfl⟩ := List.exists_cons_of_ne_nil h
  refine ⟨?_, ?_, ?_⟩ <;>
    simp [convert_images, addLog, rf_progress_total, rf_progress_completed,
      rf_progress_values, List.filterMap_append, progressValue]

/-- C5, witness on a concrete two job batch. -/
theorem C5_progress_invariants_witness :
    (convert_images [file0, file1] cfg0 envAll0 st1).state.progress.total =
      [file0, file1].length ∧
    (convert_images [file0, file1] cfg0 envAll0 st1).state.progress.completed =
      [file0, file1].length ∧
    (convert_images [file0, file1] cfg0 envAll0 st1).events.filterMap
      progressValue = List.range' 1 [file0, file1].length :=
  C5_progress_invariants [file0, file1] cfg0 envAll0 st1 (by decide)

/-- C6, counterexample. The claim says no event is ever sent while the lock
protecting shared progress or results state is held. In the trace of a one
item batch, the Progress event is sent while the progress lock is held: the
guard taken at line 129 of image_processing.rs is still live at the send on
line 134. -/
theorem C6_lock_counterexample :
    sentWhileHolding (batchLockTrace [true]) [] LockId.progressL
      EvTag.progressEv = true := by
  decide

/-- C6, amended. In every batch trace the image_details lock is released
before any event is sent, the progress lock is not held at ImageProcessed
sends, and the Completed event is sent with no lock held; but every
Progress event is sent while the progress lock is held, so the claimed
discipline holds for the results lock and fails for the progress lock. -/
theorem C6_lock_discipline_amended (oks : List Bool) :
    (∀ t, sentWhileHolding (batchLockTrace oks) [] LockId.detailsL t
      = false) ∧
    sentWhileHolding (batchLockTrace oks) [] LockId.progressL
      EvTag.imageProcessedEv = false ∧
    (∀ l, sentWhileHolding (batchLockTrace oks) [] l EvTag.completedEv
      = false) ∧
    (oks ≠ [] → sentWhileHolding (batchLockTrace oks) [] LockId.progressL
      EvTag.progressEv = true) := by
  refine ⟨?_, ?_, ?_, ?_⟩
  · intro t
    rw [batch_swh]
    simp [List.any_eq_false, swh_item_details]
  · rw [batch_swh]
    simp [List.any_eq_false, swh_item_progress_ip]
  · intro l
    rw [batch_swh]
    simp [List.any_eq_false, swh_item_completed]
  · intro hne
    obtain ⟨b, r, rfl⟩ := List.exists_cons_of_ne_nil hne
    rw [batch_swh]
    simp [swh_item_progress_prog]

/-- C6, witness for the amended theorem on a concrete two item trace. -/
theorem C6_lock_discipline_witness :
    sentWhileHolding (batchLockTrace [true, false]) [] LockId.detailsL
      EvTag.imageProcessedEv = false ∧
    sentWhileHolding (batchLockTrace [true, false]) [] LockId.progressL
      EvTag.progressEv = true :=
  ⟨(C6_lock_discipline_amended [true, false]).1 EvTag.imageProcessedEv,
   (C6_lock_discipline_amended [true, false]).2.2.2 (by decide)⟩

/-- C7. When renaming is enabled and the configured base name is nonempty,
the destination file name is the base name with the webp extension for every
item, so every write of the batch targets one and the same path and later
finishing items overwrite earlier outputs; in all other cases the batch
write sequence is exactly the per item sequence in which the item at each
index writes its own original stem with the webp extension. -/
theorem C7_destination_filename (inputs : List InputFile) (cfg : Config)
    (env : Nat → ItemEnv) (s : SharedState) :
    ((cfg.rename_enabled = true ∧ cfg.output_filename ≠ "") →
      (∀ f g : InputFile, output_file_name cfg f = output_file_name cfg g) ∧
      ∀ p ∈ (convert_images inputs cfg env s).writes,
        p = cfg.output_directory ++ "/" ++ (cfg.output_filename ++ ".webp")) ∧
    (¬ (cfg.rename_enabled = true ∧ cfg.output_filename ≠ "") →
      (convert_images inputs cfg env s).writes =
        writeList cfg env (fun f => f.stem ++ ".webp") 0 inputs) := by
  constructor
  · rintro ⟨hr, hb⟩
    constructor
    · intro f g
      simp [output_file_name, hr, hb]
    · intro p hp
      cases inputs with
      | nil => simp [convert_images, addLog] at hp
      | cons a l =>
        simp only [convert_images, List.isEmpty_cons, Bool.false_eq_true,
          if_false, addLog] at hp
        obtain ⟨f, _, rfl⟩ := rf_writes_mem cfg _ env (a :: l) 0 _ p hp
        simp [output_file_name, hr, hb]
  · intro hneg
    have hname : output_file_name cfg = fun f => f.stem ++ ".webp" := by
      funext f
      simp [output_file_name, hneg]
    cases inputs with
    | nil => simp [convert_images, addLog, writeList]
    | cons a l =>
      simp only [convert_images, List.isEmpty_cons, Bool.false_eq_true,
        if_false, addLog]
      rw [rf_writes_eq, hname]

/-- C7, witness: with renaming on and base out, a two item batch writes the
same out.webp path for both items; with renaming off, a one item batch
writes exactly its own stem based sequence. -/
theorem C7_destination_filename_witness :
    output_file_name cfgR file0 = output_file_name cfgR file1 ∧
    "/out/out.webp" = cfgR.output_directory ++ "/" ++
      (cfgR.output_filename ++ ".webp") ∧
    (convert_images [file0] cfg0 envAll0 st0).writes =
      writeList cfg0 envAll0 (fun f => f.stem ++ ".webp") 0 [file0] :=
  ⟨((C7_destination_filename [file0, file1] cfgR envAll0 st1).1
      (by decide)).1 file0 file1,
   ((C7_destination_filename [file0, file1] cfgR envAll0 st1).1
      (by decide)).2 "/out/out.webp" (by decide),
   (C7_destination_filename [file0] cfg0 envAll0 st0).2 (by decide)⟩

/-- C8, counterexample. The claim says no byte count from an earlier batch
is merged into the new shared state. After one batch on file0 with
destination size ten, selecting file1 and running a second batch with
destination size twenty, the shared tallies hold both batches: the first
batch entries 10 and 100 are still there, because convert_images only
pushes onto original_sizes and compressed_sizes and nothing ever clears
them. -/
theorem C8_merge_counterexample :
    twoBatchState.compressed_sizes = [10, 20] ∧
    (10 : Nat) ∈ twoBatchState.compressed_sizes ∧
    twoBatchState.original_sizes = [100, 120] := by
  refine ⟨?_, ?_, ?_⟩ <;> decide

/-- C8, amended. Selecting a new batch replaces the image_details records
wholesale, independently of whatever records were there before, and leaves
the size tallies untouched; a conversion run only ever appends to the
original_sizes and compressed_sizes tallies, so byte counts of earlier
batches persist in shared state instead of being discarded. -/
theorem C8_replacement_amended (files : List (String × Nat))
    (inputs : List InputFile) (cfg : Config) (env : Nat → ItemEnv)
    (s s2 : SharedState) :
    (select_images files s).image_details =
      (select_images files s2).image_details ∧
    (select_images files s).original_sizes = s.original_sizes ∧
    (select_images files s).compressed_sizes = s.compressed_sizes ∧
    (∃ t, (convert_images inputs cfg env s).state.original_sizes =
      s.original_sizes ++ t) ∧
    (∃ t, (convert_images inputs cfg env s).state.compressed_sizes =
      s.compressed_sizes ++ t) := by
  refine ⟨by simp [select_images], by simp [select_images],
    by simp [select_images], ?_, ?_⟩
  · cases inputs with
    | nil => exact ⟨[], by simp [convert_images, addLog]⟩
    | cons a l =>
      simp only [convert_images, List.isEmpty_cons, Bool.false_eq_true,
        if_false, addLog]
      exact (rf_sizes_ext cfg _ env (a :: l) 0 _).1
  · cases inputs with
    | nil => exact ⟨[], by simp [convert_images, addLog]⟩
    | cons a l =>
      simp only [convert_images, List.isEmpty_cons, Bool.false_eq_true,
        if_false, addLog]
      exact (rf_sizes_ext cfg _ env (a :: l) 0 _).2

/-- C9. For a successfully converted item whose source and destination stat
calls answer o and c bytes with o nonzero, the recorded compression rate is
exactly one minus c over o, computed from the two stat results, and it is
negative exactly when the output is larger than the input. -/
theorem C9_compression_rate (inputs : List InputFile) (cfg : Config)
    (env : Nat → ItemEnv) (s : SharedState) (i : Nat) (f : InputFile)
    (d : ImageDetail) (o c : Nat) (hf : inputs[i]? = some f)
    (hd : s.image_details[i]? = some d)
    (he : env i = { load := Except.ok (), encode := Except.ok (),
                    save := Except.ok (), statSrc := some o,
                    statDst := some c })
    (ho : o ≠ 0) :
    (convert_images inputs cfg env s).state.image_details[i]? =
      some { d with compressed_size := some c,
                    compression_rate :=
                      some (FVal.finite (1 - (c : ℚ) / (o : ℚ))) } ∧
    ((o : ℚ) < (c : ℚ) → (1 : ℚ) - (c : ℚ) / (o : ℚ) < 0) := by
  have hne : inputs ≠ [] := by
    rintro rfl
    simp at hf
  obtain ⟨a, l, rfl⟩ := List.exists_cons_of_ne_nil hne
  constructor
  · have hlen : i < (a :: l).length := by
      by_contra hcon
      push_neg at hcon
      rw [List.getElem?_eq_none (by omega)] at hf
      exact Option.noConfusion hf
    simp only [convert_images, List.isEmpty_cons, Bool.false_eq_true,
      if_false, addLog]
    rw [rf_details_get?,
      if_pos ⟨Nat.zero_le i, by omega, by rw [he]; simp [envOk, exOk]⟩]
    simp only [he]
    simp [hd, updEntry, compression_rate, fdiv, oneSub, ho]
  · intro hlt
    rw [sub_neg]
    exact (one_lt_div (by exact_mod_cast Nat.pos_of_ne_zero ho)).mpr hlt

/-- C9, witness on a concrete one job batch with sizes 100 and 50. -/
theorem C9_compression_rate_witness :
    (convert_images [file0] cfg0 envAll0 st0).state.image_details[0]? =
      some { detail0 with compressed_size := some 50,
                          compression_rate :=
                            some (FVal.finite (1 - (50 : ℚ) / (100 : ℚ))) } :=
  (C9_compression_rate [file0] cfg0 envAll0 st0 0 file0 detail0 100 50
    (by decide) (by decide) rfl (by decide)).1

/-- C10. If after a successful write stat-ing the source or the destination
file fails, the item records that size as zero instead of failing or
reporting an error: a failed source stat pushes zero onto the
original_sizes tally and a failed destination stat pushes zero onto the
compressed_sizes tally; the recorded record fields and the emitted
ImageProcessed event are computed from these possibly zero values for any
combination of stat outcomes, and a recorded source size of zero makes the
compression rate non finite. -/
theorem C10_stat_failure_zero (inputs : List InputFile) (cfg : Config)
    (env : Nat → ItemEnv) (s : SharedState) (i : Nat) (f : InputFile)
    (d : ImageDetail) (ss sd : Option Nat) (hf : inputs[i]? = some f)
    (hd : s.image_details[i]? = some d)
    (he : env i = { load := Except.ok (), encode := Except.ok (),
                    save := Except.ok (), statSrc := ss,
                    statDst := sd }) :
    (ss = none →
      (processItem cfg inputs.length i f (env i) s).state.original_sizes =
        s.original_sizes ++ [0]) ∧
    (sd = none →
      (processItem cfg inputs.length i f (env i) s).state.compressed_sizes =
        s.compressed_sizes ++ [0]) ∧
    (convert_images inputs cfg env s).state.image_details[i]? =
      some { d with compressed_size := some (sd.getD 0),
                    compression_rate :=
                      some (compression_rate (sd.getD 0) (ss.getD 0)) } ∧
    (ss = none →
      FVal.isFinite (compression_rate (sd.getD 0) (ss.getD 0)) = false) ∧
    ConversionUpdate.ImageProcessed i (some (sd.getD 0))
      (some (compression_rate (sd.getD 0) (ss.getD 0))) ∈
      (convert_images inputs cfg env s).events := by
  have hne : inputs ≠ [] := by
    rintro rfl
    simp at hf
  obtain ⟨a, l, rfl⟩ := List.exists_cons_of_ne_nil hne
  have hlen : i < (a :: l).length := by
    by_contra hcon
    push_neg at hcon
    rw [List.getElem?_eq_none (by omega)] at hf
    exact Option.noConfusion hf
  refine ⟨?_, ?_, ?_, ?_, ?_⟩
  · intro hss
    subst hss
    rw [pi_orig_sizes, he]
    simp [envOk, exOk]
  · intro hsd
    subst hsd
    rw [pi_comp_sizes, he]
    simp [envOk, exOk]
  · simp only [convert_images, List.isEmpty_cons, Bool.false_eq_true,
      if_false, addLog]
    rw [rf_details_get?,
      if_pos ⟨Nat.zero_le i, by omega, by rw [he]; simp [envOk, exOk]⟩]
    simp only [he]
    simp [hd, updEntry]
  · intro hss
    subst hss
    by_cases hz : sd.getD 0 = 0 <;>
      simp [hz, compression_rate, fdiv, oneSub, FVal.isFinite]
  · simp only [convert_images, List.isEmpty_cons, Bool.false_eq_true,
      if_false, addLog]
    refine List.mem_append_left _ ?_
    have hok : envOk (env (0 + i)) = true := by
      rw [Nat.zero_add, he]
      simp [envOk, exOk]
    simpa [Nat.zero_add, he] using
      rf_ip_intro cfg ((a :: l).length) env (a :: l) 0 i _ f hf hok

/-- C10, witness on a concrete one job batch whose source stat fails while
the destination stat answers fifty bytes. -/
theorem C10_stat_failure_zero_witness :
    (convert_images [file0] cfg0 envNoSrcStat st0).state.image_details[0]? =
      some { detail0 with compressed_size := some 50,
                          compression_rate := some (compression_rate 50 0) } ∧
    FVal.isFinite (compression_rate 50 0) = false :=
  ⟨(C10_stat_failure_zero [file0] cfg0 envNoSrcStat st0 0 file0 detail0 none
      (some 50) (by decide) (by decide) rfl).2.2.1,
   (C10_stat_failure_zero [file0] cfg0 envNoSrcStat st0 0 file0 detail0 none
      (some 50) (by decide) (by decide) rfl).2.2.2.1 rfl⟩

end ImageEncoder
